import Mathlib

/-!
Shallow embedding of the door-event logger service (Express + PostgreSQL).
The `events` table (init-db.js) has columns
`id SERIAL, door_number, event_type, timestamp_utc, created_at, deleted_at`;
timestamps are modelled as integers (milliseconds since the Unix epoch, UTC).
Each HTTP handler of the server (src/unnamed/part_000) is embedded as a pure
function from the request data and the current server time to a result and the
new store state.  PostgreSQL's `ORDER BY timestamp_utc DESC` specifies no order
among rows with equal keys; the embedding fixes the typical heap behaviour, a
stable sort that keeps insertion order among ties.
-/

/-- Event row of the `events` table. -/
structure Event where
  id : Int
  door_number : Int
  event_type : String
  timestamp_utc : Int
  created_at : Int
  deleted_at : Option Int
deriving DecidableEq, Repr

/-- The database state: the rows of `events` in insertion order, and the next
value of the `id` sequence (`SERIAL` starts at 1). -/
structure Store where
  events : List Event
  nextId : Int
deriving DecidableEq, Repr

def emptyStore : Store := { events := [], nextId := 1 }

/-- Error responses of the API handlers: 400 (validation) and 404 (not found). -/
inductive ApiError where
  | validation (msg : String)
  | notFound (msg : String)
deriving DecidableEq, Repr

/-- The allowed `event_type` values (checked both by the handler and by the
table's CHECK constraint). -/
def eventTypes : List String := ["A_IN", "A_OUT", "B_IN", "B_OUT"]

/-- A row is active when `deleted_at IS NULL`. -/
def activeB (e : Event) : Bool := e.deleted_at.isNone

def activeEvents (s : Store) : List Event := s.events.filter activeB

def activeCount (s : Store) : Nat := (activeEvents s).length

/-- Well-formedness maintained by the store: every assigned id is below the
sequence counter, and ids are pairwise distinct (`id` is the primary key). -/
def WF (s : Store) : Prop :=
  (∀ e ∈ s.events, e.id < s.nextId) ∧
    s.events.Pairwise (fun a b => a.id ≠ b.id)

/-- Comparison used by `ORDER BY timestamp_utc DESC`. -/
def tsGe (a b : Event) : Bool := decide (b.timestamp_utc ≤ a.timestamp_utc)

/-- Stable insertion into a list sorted by `timestamp_utc` descending; among
equal timestamps, rows already in the list keep priority only when strictly
greater, so the inserted (earlier-scanned) row goes first on ties. -/
def insertTsDesc (e : Event) : List Event → List Event
  | [] => [e]
  | f :: rest => if tsGe e f then e :: f :: rest else f :: insertTsDesc e rest

/-- Stable sort by `timestamp_utc` descending (ties keep insertion order). -/
def sortTsDesc : List Event → List Event
  | [] => []
  | e :: rest => insertTsDesc e (sortTsDesc rest)

theorem perm_insertTsDesc (e : Event) (l : List Event) :
    (insertTsDesc e l).Perm (e :: l) := by
  induction l with
  | nil => exact List.Perm.refl _
  | cons f rest ih =>
    by_cases h : tsGe e f
    · simp [insertTsDesc, h]
    · simp only [insertTsDesc, h, if_false]
      exact (ih.cons f).trans (List.Perm.swap e f rest)

theorem perm_sortTsDesc (l : List Event) : (sortTsDesc l).Perm l := by
  induction l with
  | nil => exact List.Perm.refl _
  | cons e rest ih =>
    exact (perm_insertTsDesc e (sortTsDesc rest)).trans (ih.cons e)

theorem length_sortTsDesc (l : List Event) : (sortTsDesc l).length = l.length :=
  (perm_sortTsDesc l).length_eq

theorem mem_insertTsDesc {x e : Event} {l : List Event} :
    x ∈ insertTsDesc e l ↔ x = e ∨ x ∈ l := by
  rw [(perm_insertTsDesc e l).mem_iff]
  simp

/-- The descending-timestamp order as a proposition. -/
def TsOrder (a b : Event) : Prop := b.timestamp_utc ≤ a.timestamp_utc

theorem sorted_insertTsDesc {e : Event} {l : List Event}
    (hl : l.Pairwise TsOrder) : (insertTsDesc e l).Pairwise TsOrder := by
  induction l with
  | nil => simp [insertTsDesc, TsOrder]
  | cons f rest ih =>
    rcases List.pairwise_cons.mp hl with ⟨hf, hrest⟩
    by_cases h : tsGe e f
    · have hef : TsOrder e f := by
        simpa [tsGe, TsOrder] using h
      simp only [insertTsDesc, h, if_true]
      refine List.pairwise_cons.mpr ⟨?_, hl⟩
      intro x hx
      rcases List.mem_cons.mp hx with rfl | hx
      · exact hef
      · exact le_trans (hf x hx) hef
    · have hfe : TsOrder f e :=
        le_of_not_le (by simpa [tsGe, TsOrder] using h)
      simp only [insertTsDesc, h, if_false]
      refine List.pairwise_cons.mpr ⟨?_, ih hrest⟩
      intro x hx
      rcases mem_insertTsDesc.mp hx with rfl | hx
      · exact hfe
      · exact hf x hx

theorem sorted_sortTsDesc (l : List Event) : (sortTsDesc l).Pairwise TsOrder := by
  induction l with
  | nil => simp [sortTsDesc]
  | cons e rest ih => exact sorted_insertTsDesc ih

/-- Request body of `POST /api/events`.  The handler destructures only
`door_number` and `event_type`; a caller-supplied `timestamp_utc` field, if
present, is never read. -/
structure ReqBody where
  door_number : Int
  event_type : String
  timestamp_utc : Option String
deriving DecidableEq, Repr

/-- Numeric value of a maximal run of leading decimal digits, or `none` when
there is no digit (JavaScript `parseInt` returning `NaN`). -/
def digitsVal (cs : List Char) : Option Nat :=
  let ds := cs.takeWhile Char.isDigit
  if ds.isEmpty then none
  else some (ds.foldl (fun acc c => acc * 10 + (c.toNat - 48)) 0)

/-- JavaScript `parseInt(x)` for `x` an absent query parameter (`undefined`,
giving `NaN`) or a string: optional leading spaces and sign, then leading
digits; `none` models `NaN`. -/
def parseIntJS : Option String → Option Int
  | none => none
  | some str =>
    match str.data.dropWhile (fun c => c = ' ') with
    | '-' :: rest => (digitsVal rest).map (fun n => -(n : Int))
    | '+' :: rest => (digitsVal rest).map (fun n => (n : Int))
    | cs => (digitsVal cs).map (fun n => (n : Int))

/-- `const limit = parseInt(req.query.limit) || 10` — `NaN` and `0` are falsy,
any other parsed value (negative or arbitrarily large) is kept. -/
def recentLimit (q : Option String) : Int :=
  match parseIntJS q with
  | none => 10
  | some 0 => 10
  | some n => n

/-- `SELECT ... WHERE deleted_at IS NULL ORDER BY timestamp_utc DESC LIMIT $1`.
PostgreSQL rejects a negative `LIMIT` with an error (surfaced as HTTP 500). -/
def list_active (s : Store) (limit : Int) : Except String (List Event) :=
  if limit < 0 then Except.error "LIMIT must not be negative"
  else Except.ok ((sortTsDesc (activeEvents s)).take limit.toNat)

/-- `GET /api/events/recent`. -/
def recent (s : Store) (q : Option String) : Except String (List Event) :=
  list_active s (recentLimit q)

/-- The row built by the `INSERT` of `POST /api/events`: fresh `SERIAL` id,
`timestamp_utc` and `created_at` both `NOW() AT TIME ZONE 'UTC'`,
`deleted_at` null. -/
def freshEvent (b : ReqBody) (now : Int) (s : Store) : Event :=
  { id := s.nextId, door_number := b.door_number, event_type := b.event_type,
    timestamp_utc := now, created_at := now, deleted_at := none }

/-- The store after a successful `INSERT`. -/
def insertStore (b : ReqBody) (now : Int) (s : Store) : Store :=
  { events := s.events ++ [freshEvent b now s], nextId := s.nextId + 1 }

/-- `POST /api/events`: JS-truthiness required check (`0` and `""` are falsy),
range check, enumeration check, then `INSERT` with server-assigned
`timestamp_utc = created_at = NOW()`.  Returns the handler's response and the
store state after the request. -/
def record (b : ReqBody) (now : Int) (s : Store) : Except ApiError Event × Store :=
  if b.door_number = 0 ∨ b.event_type = "" then
    (Except.error (ApiError.validation "door_number and event_type are required"), s)
  else if b.door_number < 1 ∨ 26 < b.door_number then
    (Except.error (ApiError.validation "door_number must be between 1 and 26"), s)
  else if ¬ b.event_type ∈ eventTypes then
    (Except.error (ApiError.validation "event_type must be A_IN, A_OUT, B_IN, or B_OUT"), s)
  else
    (Except.ok (freshEvent b now s), insertStore b now s)

/-- `UPDATE events SET deleted_at = NOW() WHERE id = $1 AND deleted_at IS NULL
RETURNING id`: the updated table and the number of rows affected. -/
def soft_delete (s : Store) (eid : Int) (now : Int) : Store × Nat :=
  ({ s with
      events := s.events.map (fun e =>
        if e.id = eid ∧ e.deleted_at = none then { e with deleted_at := some now } else e) },
    (s.events.filter (fun e => decide (e.id = eid ∧ e.deleted_at = none))).length)

/-- `DELETE /api/events/:id`: 404 when the conditional update matched no row,
204 otherwise. -/
def undo (s : Store) (eid : Int) (now : Int) : Except ApiError Store :=
  let r := soft_delete s eid now
  if r.2 = 0 then Except.error (ApiError.notFound "Event not found or already deleted")
  else Except.ok r.1

/-- `GET /api/events/last`: `SELECT ... WHERE door_number = $1 AND
event_type = $2 AND deleted_at IS NULL ORDER BY timestamp_utc DESC LIMIT 1`.
No secondary sort key: ties are left to the storage scan (embedded as
insertion order). -/
def find_last (s : Store) (door : Int) (etype : String) : Option Event :=
  (sortTsDesc (s.events.filter (fun e =>
    decide (e.door_number = door ∧ e.event_type = etype ∧ e.deleted_at = none)))).head?

/-- The undo-last composition used by the front end: fetch the last active
event for the button, then soft-delete it by id. -/
def undo_last (s : Store) (door : Int) (etype : String) (now : Int) :
    Except ApiError Store :=
  match find_last s door etype with
  | none => Except.error (ApiError.notFound "No events found for this button")
  | some e => undo s e.id now

def dayMs : Int := 86400000

/-- `POST /api/cleanup`: `DELETE FROM events WHERE created_at < NOW() -
INTERVAL '<retention> days' RETURNING id`; returns the new table and the
deleted count (`DATA_RETENTION_DAYS` defaults to 7). -/
def cleanup (s : Store) (now : Int) (retentionDays : Int) : Store × Nat :=
  ({ s with
      events := s.events.filter (fun e => decide (now - retentionDays * dayMs ≤ e.created_at)) },
    (s.events.filter (fun e => decide (e.created_at < now - retentionDays * dayMs))).length)

/-- Left-pad a decimal rendering with zeros to the given width. -/
def padZ (width : Nat) (n : Nat) : String :=
  let str := toString n
  if str.length < width then String.mk (List.replicate (width - str.length) '0') ++ str
  else str

/-- Proleptic Gregorian civil date from days since 1970-01-01 (year, month,
day). -/
def civilFromDays (z0 : Int) : Int × Nat × Nat :=
  let z := z0 + 719468
  let era := z.ediv 146097
  let doe := (z.emod 146097).toNat
  let yoe := (doe - doe / 1460 + doe / 36524 - doe / 146096) / 365
  let doy := doe - (365 * yoe + yoe / 4 - yoe / 100)
  let mp := (5 * doy + 2) / 153
  let d := doy - (153 * mp + 2) / 5 + 1
  let m := if mp < 10 then mp + 3 else mp - 9
  ((yoe : Int) + era * 400 + (if m ≤ 2 then 1 else 0), m, d)

/-- JavaScript `Date.prototype.toISOString` for an instant in milliseconds
since the epoch (years 0000–9999): `YYYY-MM-DDTHH:mm:ss.sssZ`, millisecond
precision, UTC. -/
def isoUTC (t : Int) : String :=
  let msOfDay := (t.emod 86400000).toNat
  let ymd := civilFromDays (t.ediv 86400000)
  padZ 4 ymd.1.toNat ++ "-" ++ padZ 2 ymd.2.1 ++ "-" ++ padZ 2 ymd.2.2 ++ "T" ++
    padZ 2 (msOfDay / 3600000) ++ ":" ++ padZ 2 (msOfDay / 60000 % 60) ++ ":" ++
    padZ 2 (msOfDay / 1000 % 60) ++ "." ++ padZ 3 (msOfDay % 1000) ++ "Z"

/-- One CSV line of `GET /api/events/export`:
`id,door_number,event_type,timestamp_utc` with the timestamp rendered by
`toISOString`. -/
def serializeRow (e : Event) : String :=
  toString e.id ++ "," ++ toString e.door_number ++ "," ++ e.event_type ++ "," ++
    isoUTC e.timestamp_utc

/-- The data rows of the export, one per active event, ordered by
`timestamp_utc` descending. -/
def exportRows (s : Store) : List String := (sortTsDesc (activeEvents s)).map serializeRow

/-- The full CSV body: header line then the rows joined by newlines. -/
def exportCsv (s : Store) : String :=
  "id,door_number,event_type,timestamp_utc\n" ++ String.intercalate "\n" (exportRows s)

deriving instance DecidableEq for Except

/-- The three store-mutating operations of the service. -/
inductive Op where
  | recOp (b : ReqBody)
  | undoOp (eid : Int)
  | cleanupOp (retentionDays : Int)
deriving DecidableEq, Repr

/-- The store state after an operation runs at server time `now` (the SQL
statement executes regardless of which HTTP status the handler then sends). -/
def applyOp (op : Op) (now : Int) (s : Store) : Store :=
  match op with
  | Op.recOp b => (record b now s).2
  | Op.undoOp eid => (soft_delete s eid now).1
  | Op.cleanupOp r => (cleanup s now r).1

/-- A record or undo request together with the server time at which it runs. -/
inductive RUOp where
  | recOp (b : ReqBody) (now : Int)
  | undoOp (eid : Int) (now : Int)
deriving DecidableEq, Repr

/-- Run a sequence of record/undo requests; returns the final store, the number
of successful records (201) and the number of successful undos (204). -/
def runTrace : List RUOp → Store → Store × Nat × Nat
  | [], s => (s, 0, 0)
  | RUOp.recOp b now :: rest, s =>
    let res := record b now s
    let r := runTrace rest res.2
    match res.1 with
    | Except.ok _ => (r.1, r.2.1 + 1, r.2.2)
    | Except.error _ => r
  | RUOp.undoOp eid now :: rest, s =>
    let d := soft_delete s eid now
    let r := runTrace rest d.1
    if d.2 = 0 then r else (r.1, r.2.1, r.2.2 + 1)

/-- Concrete store with two active events for door 5 / `A_IN` that share the
same `timestamp_utc`; `tieE2` has the larger id (created second). -/
def tieE1 : Event :=
  { id := 1, door_number := 5, event_type := "A_IN", timestamp_utc := 1000,
    created_at := 1000, deleted_at := none }

def tieE2 : Event :=
  { id := 2, door_number := 5, event_type := "A_IN", timestamp_utc := 1000,
    created_at := 1000, deleted_at := none }

def tieStore : Store := { events := [tieE1, tieE2], nextId := 3 }

/-- Concrete store for the retention boundary: `oldE` was created 8 days before
the cleanup instant `10 * dayMs`, `newE` 6 days before it. -/
def oldE : Event :=
  { id := 1, door_number := 3, event_type := "B_IN", timestamp_utc := 2 * dayMs,
    created_at := 2 * dayMs, deleted_at := none }

def newE : Event :=
  { id := 2, door_number := 3, event_type := "B_IN", timestamp_utc := 4 * dayMs,
    created_at := 4 * dayMs, deleted_at := none }

def retStore : Store := { events := [oldE, newE], nextId := 3 }

theorem pairwise_ne_id_unique {l : List Event}
    (hp : l.Pairwise (fun a b => a.id ≠ b.id)) :
    ∀ a ∈ l, ∀ b ∈ l, a.id = b.id → a = b := by
  induction l with
  | nil => intro a ha; cases ha
  | cons x xs ih =>
    rcases List.pairwise_cons.mp hp with ⟨hx, hxs⟩
    intro a ha b hb hab
    rcases List.mem_cons.mp ha with ha1 | ha1
    · rcases List.mem_cons.mp hb with hb1 | hb1
      · exact ha1.trans hb1.symm
      · exact absurd (ha1 ▸ hab) (hx b hb1)
    · rcases List.mem_cons.mp hb with hb1 | hb1
      · exact absurd (hb1 ▸ hab).symm (hx a ha1)
      · exact ih hxs a ha1 b hb1 hab

theorem record_cases (b : ReqBody) (now : Int) (s : Store) :
    (∃ msg, record b now s = (Except.error (ApiError.validation msg), s)) ∨
      record b now s = (Except.ok (freshEvent b now s), insertStore b now s) := by
  unfold record
  split_ifs with h1 h2 h3
  all_goals first
    | exact Or.inl ⟨_, rfl⟩
    | exact Or.inr rfl

theorem activeCount_insertStore (b : ReqBody) (now : Int) (s : Store) :
    activeCount (insertStore b now s) = activeCount s + 1 := by
  simp [activeCount, activeEvents, insertStore, List.filter_append, freshEvent, activeB]

theorem insertStore_nextId (b : ReqBody) (now : Int) (s : Store) :
    (insertStore b now s).nextId = s.nextId + 1 := rfl

theorem WF_insertStore (b : ReqBody) (now : Int) (s : Store) (hwf : WF s) :
    WF (insertStore b now s) := by
  rcases hwf with ⟨hlt, hne⟩
  constructor
  · intro e he
    rw [insertStore_nextId]
    rcases List.mem_append.mp he with he | he
    · have := hlt e he
      omega
    · simp only [List.mem_singleton] at he
      subst he
      show s.nextId < s.nextId + 1
      omega
  · refine List.pairwise_append.mpr ⟨hne, List.pairwise_singleton _ _, ?_⟩
    intro a ha b hb
    simp only [List.mem_singleton] at hb
    subst hb
    have := hlt a ha
    show a.id ≠ s.nextId
    omega

theorem soft_delete_events (s : Store) (eid now : Int) :
    (soft_delete s eid now).1.events = s.events.map (fun e =>
      if e.id = eid ∧ e.deleted_at = none then { e with deleted_at := some now } else e) := rfl

theorem soft_delete_count (s : Store) (eid now : Int) :
    (soft_delete s eid now).2 =
      (s.events.filter (fun e => decide (e.id = eid ∧ e.deleted_at = none))).length := rfl

theorem filter_active_map_soft (eid now : Int) : ∀ l : List Event,
    ((l.map (fun e =>
        if e.id = eid ∧ e.deleted_at = none then { e with deleted_at := some now } else e)).filter
          activeB).length
        + (l.filter (fun e => decide (e.id = eid ∧ e.deleted_at = none))).length
      = (l.filter activeB).length := by
  intro l
  induction l with
  | nil => rfl
  | cons x xs ih =>
    simp only [List.map_cons, List.filter_cons]
    by_cases hm : x.id = eid ∧ x.deleted_at = none
    · have h1 : activeB { x with deleted_at := some now } = false := by
        simp [activeB]
      have h3 : activeB x = true := by
        simp [activeB, hm.2]
      rw [if_pos hm]
      simp only [h1, h3, decide_eq_true hm, if_true, Bool.false_eq_true, if_false,
        List.length_cons]
      omega
    · have h2 : decide (x.id = eid ∧ x.deleted_at = none) = false := decide_eq_false hm
      rw [if_neg hm]
      by_cases ha : activeB x
      · simp only [h2, ha, if_true, Bool.false_eq_true, if_false, List.length_cons]
        omega
      · simp only [h2, Bool.not_eq_true] at *
        simp only [ha, Bool.false_eq_true, if_false]
        omega

theorem soft_delete_activeCount (s : Store) (eid now : Int) :
    activeCount (soft_delete s eid now).1 + (soft_delete s eid now).2 = activeCount s := by
  rw [soft_delete_count]
  exact filter_active_map_soft eid now s.events

theorem filter_id_le_one (eid : Int) : ∀ l : List Event,
    l.Pairwise (fun a b => a.id ≠ b.id) →
    (l.filter (fun e => decide (e.id = eid ∧ e.deleted_at = none))).length ≤ 1 := by
  intro l
  induction l with
  | nil => intro _; simp
  | cons x xs ih =>
    intro hp
    rcases List.pairwise_cons.mp hp with ⟨hx, hxs⟩
    by_cases hm : x.id = eid ∧ x.deleted_at = none
    · have hnil : xs.filter (fun e => decide (e.id = eid ∧ e.deleted_at = none)) = [] := by
        refine List.filter_eq_nil_iff.mpr ?_
        intro e he
        simp only [decide_eq_true_eq, not_and]
        intro hid _
        exact hx e he (hm.1.trans hid.symm)
      simp only [List.filter_cons, decide_eq_true hm, if_true, hnil, List.length_cons,
        List.length_nil]
      omega
    · simp only [List.filter_cons, decide_eq_false hm, Bool.false_eq_true, if_false]
      exact ih hxs

theorem soft_delete_count_le_one (s : Store) (eid now : Int) (hwf : WF s) :
    (soft_delete s eid now).2 ≤ 1 := by
  rw [soft_delete_count]
  exact filter_id_le_one eid s.events hwf.2

theorem WF_soft_delete (s : Store) (eid now : Int) (hwf : WF s) :
    WF (soft_delete s eid now).1 := by
  rcases hwf with ⟨hlt, hne⟩
  constructor
  · intro e he
    rw [soft_delete_events] at he
    rcases List.mem_map.mp he with ⟨e0, he0, rfl⟩
    have := hlt e0 he0
    split_ifs <;> simpa [soft_delete]
  · rw [soft_delete_events]
    refine List.pairwise_map.mpr (hne.imp ?_)
    intro a b hab
    split_ifs <;> simpa

theorem WF_cleanup (s : Store) (now retention : Int) (hwf : WF s) :
    WF (cleanup s now retention).1 := by
  rcases hwf with ⟨hlt, hne⟩
  exact ⟨fun e he => hlt e (List.mem_of_mem_filter he), hne.sublist (List.filter_sublist _)⟩

theorem length_filter_not_add (p : Event → Bool) : ∀ l : List Event,
    (l.filter (fun e => ! p e)).length + (l.filter p).length = l.length := by
  intro l
  induction l with
  | nil => rfl
  | cons x xs ih =>
    by_cases h : p x
    · simp only [List.filter_cons, h, Bool.not_true, Bool.false_eq_true, if_false, if_true,
        List.length_cons]
      omega
    · simp only [List.filter_cons, Bool.not_eq_true] at h
      simp only [List.filter_cons, h, Bool.not_false, Bool.false_eq_true, if_false, if_true,
        List.length_cons]
      omega

theorem cleanup_count (s : Store) (now retention : Int) :
    (cleanup s now retention).2 + (cleanup s now retention).1.events.length =
      s.events.length := by
  show (s.events.filter _).length + (s.events.filter _).length = s.events.length
  have hcongr : s.events.filter (fun e => decide (e.created_at < now - retention * dayMs)) =
      s.events.filter (fun e => ! decide (now - retention * dayMs ≤ e.created_at)) := by
    refine List.filter_congr ?_
    intro e _
    by_cases h : now - retention * dayMs ≤ e.created_at
    · simp [h, not_lt.mpr h]
    · simp [h, lt_of_not_le h]
  rw [hcongr]
  exact length_filter_not_add (fun e => decide (now - retention * dayMs ≤ e.created_at)) s.events

theorem runTrace_activeCount : ∀ (tr : List RUOp) (s : Store), WF s →
    activeCount (runTrace tr s).1 + (runTrace tr s).2.2 =
      activeCount s + (runTrace tr s).2.1 := by
  intro tr
  induction tr with
  | nil => intro s _; rfl
  | cons op rest ih =>
    intro s hwf
    cases op with
    | recOp b now =>
      rcases record_cases b now s with ⟨msg, hrec⟩ | hrec
      · simp only [runTrace, hrec]
        exact ih s hwf
      · simp only [runTrace, hrec]
        have h2 := ih (insertStore b now s) (WF_insertStore b now s hwf)
        have h3 := activeCount_insertStore b now s
        omega
    | undoOp eid now =>
      have hc := soft_delete_activeCount s eid now
      have hle := soft_delete_count_le_one s eid now hwf
      have h2 := ih (soft_delete s eid now).1 (WF_soft_delete s eid now hwf)
      by_cases h0 : (soft_delete s eid now).2 = 0
      · simp only [runTrace]
        rw [if_pos h0]
        omega
      · simp only [runTrace]
        rw [if_neg h0]
        dsimp only
        omega

theorem WF_emptyStore : WF emptyStore := by
  constructor <;> simp [emptyStore]

theorem soft_delete_twice_count (s : Store) (eid now now2 : Int) :
    (soft_delete (soft_delete s eid now).1 eid now2).2 = 0 := by
  rw [soft_delete_count, List.length_eq_zero]
  refine List.filter_eq_nil_iff.mpr ?_
  intro e2 he2
  rw [soft_delete_events] at he2
  rcases List.mem_map.mp he2 with ⟨e0, he0, rfl⟩
  by_cases hm : e0.id = eid ∧ e0.deleted_at = none
  · simp [hm]
  · simp only [if_neg hm]
    simpa using hm

/-- C1: the claim asserts that among active events of a door/event_type pair
sharing the identical greatest `timestamp_utc`, the find-last query selects
the one with the greatest id, so `undo_last` soft-deletes it.  The SQL orders
by `timestamp_utc DESC LIMIT 1` with no secondary `id DESC` key, so the tie is
left to the storage scan: on `tieStore` (two tied active events, ids 1 and 2,
id 2 created second) the query returns the event with id 1 and `undo_last`
soft-deletes id 1, leaving id 2 active — the opposite of the claimed
tie-break. -/
theorem find_last_tie_no_id_tiebreak :
    find_last tieStore 5 "A_IN" = some tieE1 ∧
    tieE1.id = 1 ∧ tieE2.id = 2 ∧ tieE1.timestamp_utc = tieE2.timestamp_utc ∧
    undo_last tieStore 5 "A_IN" 2000 =
      Except.ok { events := [{ tieE1 with deleted_at := some 2000 }, tieE2], nextId := 3 } := by
  decide

/-- C2: `undo` succeeds exactly when an event with the given id exists with
`deleted_at` null; otherwise it fails with the 404 not-found response and the
table is unchanged; after a successful `undo(id)`, a second `undo(id)` fails
with the same not-found response. -/
theorem undo_spec (s : Store) (eid now : Int) :
    ((∃ e ∈ s.events, e.id = eid ∧ e.deleted_at = none) →
        undo s eid now = Except.ok (soft_delete s eid now).1) ∧
    ((¬ ∃ e ∈ s.events, e.id = eid ∧ e.deleted_at = none) →
        undo s eid now = Except.error (ApiError.notFound "Event not found or already deleted") ∧
          (soft_delete s eid now).1 = s) ∧
    (∀ s2, undo s eid now = Except.ok s2 →
        undo s2 eid now =
          Except.error (ApiError.notFound "Event not found or already deleted")) := by
  refine ⟨?_, ?_, ?_⟩
  · rintro ⟨e, he, hp⟩
    have hmem : e ∈ s.events.filter (fun e => decide (e.id = eid ∧ e.deleted_at = none)) :=
      List.mem_filter.mpr ⟨he, decide_eq_true hp⟩
    have hne0 : (soft_delete s eid now).2 ≠ 0 := by
      rw [soft_delete_count]
      intro hlen
      rw [List.length_eq_zero] at hlen
      rw [hlen] at hmem
      exact List.not_mem_nil e hmem
    simp only [undo]
    rw [if_neg hne0]
  · intro hne
    have h0 : (soft_delete s eid now).2 = 0 := by
      rw [soft_delete_count, List.length_eq_zero]
      refine List.filter_eq_nil_iff.mpr ?_
      intro e he
      simp only [decide_eq_true_eq]
      intro hp
      exact hne ⟨e, he, hp⟩
    constructor
    · simp only [undo]
      rw [if_pos h0]
    · rcases s with ⟨ev, nid⟩
      show ({ events := ev.map _, nextId := nid } : Store) = _
      have hev : ev.map (fun e =>
          if e.id = eid ∧ e.deleted_at = none then { e with deleted_at := some now }
          else e) = ev := by
        refine List.map_congr_left ?_ |>.trans (List.map_id ev)
        intro e he
        refine if_neg ?_
        intro hp
        exact hne ⟨e, he, hp⟩
      rw [hev]
  · intro s2 hok
    have hne0 : ¬ (soft_delete s eid now).2 = 0 := by
      intro h0
      simp only [undo] at hok
      rw [if_pos h0] at hok
      cases hok
    have hs2 : s2 = (soft_delete s eid now).1 := by
      simp only [undo] at hok
      rw [if_neg hne0] at hok
      cases hok
      rfl
    subst hs2
    have h0 := soft_delete_twice_count s eid now now
    simp only [undo]
    rw [if_pos h0]

/-- C2 witness: on `tieStore`, undoing id 1 succeeds; on the empty store,
undoing id 1 fails with the not-found response. -/
theorem undo_spec_witness :
    undo tieStore 1 2000 = Except.ok (soft_delete tieStore 1 2000).1 ∧
    undo emptyStore 1 2000 =
      Except.error (ApiError.notFound "Event not found or already deleted") := by
  constructor
  · exact (undo_spec tieStore 1 2000).1 (by decide)
  · exact ((undo_spec emptyStore 1 2000).2.1 (by decide)).1

theorem record_ok_valid {b : ReqBody} {now : Int} {s : Store} {e : Event} {s2 : Store}
    (hrec : record b now s = (Except.ok e, s2)) :
    1 ≤ b.door_number ∧ b.door_number ≤ 26 ∧ b.event_type ∈ eventTypes := by
  unfold record at hrec
  split_ifs at hrec with h1 h2 h3
  · exact absurd hrec (by simp)
  · exact absurd hrec (by simp)
  · push_neg at h2
    exact ⟨by omega, by omega, h3⟩
  · exact absurd hrec (by simp)

/-- C3: a record request whose door_number is outside [1,26] or whose
event_type is not in the enumeration is rejected with a 400 validation
response before any store operation, and the store is unchanged. -/
theorem record_invalid_rejected (b : ReqBody) (now : Int) (s : Store)
    (h : b.door_number < 1 ∨ 26 < b.door_number ∨ ¬ b.event_type ∈ eventTypes) :
    (∃ msg, (record b now s).1 = Except.error (ApiError.validation msg)) ∧
    (record b now s).2 = s := by
  rcases record_cases b now s with ⟨msg, hrec⟩ | hrec
  · rw [hrec]
    exact ⟨⟨msg, rfl⟩, rfl⟩
  · exfalso
    have hv := record_ok_valid hrec
    rcases h with h | h | h
    · omega
    · omega
    · exact h hv.2.2

/-- C3 witness: door 27 is rejected with a validation response and the empty
store is unchanged. -/
theorem record_invalid_rejected_witness :
    (∃ msg, (record { door_number := 27, event_type := "A_IN", timestamp_utc := none } 0
        emptyStore).1 = Except.error (ApiError.validation msg)) ∧
    (record { door_number := 27, event_type := "A_IN", timestamp_utc := none } 0
        emptyStore).2 = emptyStore :=
  record_invalid_rejected _ 0 emptyStore (by decide)

/-- C9: the stored and returned event depends only on the validated
`door_number` and `event_type` and the server clock — a request body that
differs only in a caller-supplied `timestamp_utc` value produces the identical
result and store, because the handler never reads that field and the `INSERT`
uses `NOW() AT TIME ZONE 'UTC'`. -/
theorem record_ignores_client_timestamp (b1 b2 : ReqBody) (now : Int) (s : Store)
    (hd : b1.door_number = b2.door_number) (he : b1.event_type = b2.event_type) :
    record b1 now s = record b2 now s := by
  obtain ⟨d1, t1, ts1⟩ := b1
  obtain ⟨d2, t2, ts2⟩ := b2
  dsimp only at hd he
  subst hd
  subst he
  rfl

/-- A request body carrying a caller-supplied timestamp, and the same request
without one. -/
def bodyWithClientTs : ReqBody :=
  { door_number := 5, event_type := "A_IN", timestamp_utc := some "1999-01-01T00:00:00Z" }

def bodyNoClientTs : ReqBody :=
  { door_number := 5, event_type := "A_IN", timestamp_utc := none }

/-- C9 witness: the same door/event_type with a caller-supplied timestamp and
without one give the identical result. -/
theorem record_ignores_client_timestamp_witness :
    record bodyWithClientTs 42 emptyStore = record bodyNoClientTs 42 emptyStore :=
  record_ignores_client_timestamp bodyWithClientTs bodyNoClientTs 42 emptyStore rfl rfl

/-- C6: cleanup is idempotent — rerunning it immediately (same server instant,
same retention, no new data) deletes zero rows, since every surviving row's
`created_at` is at or after the cutoff. -/
theorem cleanup_idempotent (s : Store) (now retention : Int) :
    (cleanup (cleanup s now retention).1 now retention).2 = 0 := by
  show ((cleanup s now retention).1.events.filter
      (fun e => decide (e.created_at < now - retention * dayMs))).length = 0
  rw [List.length_eq_zero]
  refine List.filter_eq_nil_iff.mpr ?_
  intro e he
  have hq := (List.mem_filter.mp he).2
  simp only [decide_eq_true_eq] at hq ⊢
  omega

/-- C5: cleanup removes exactly the rows (active or soft-deleted alike) whose
`created_at` is strictly older than `now - retention_days`, returns the number
removed, keeps a row created 6 days before now at retention 7, and removes one
created 8 days before now. -/
theorem cleanup_spec (s : Store) (now retention : Int) :
    (∀ e, e ∈ (cleanup s now retention).1.events ↔
        e ∈ s.events ∧ now - retention * dayMs ≤ e.created_at) ∧
    (cleanup s now retention).2 + (cleanup s now retention).1.events.length =
      s.events.length ∧
    (∀ e ∈ s.events, retention = 7 → e.created_at = now - 6 * dayMs →
        e ∈ (cleanup s now retention).1.events) ∧
    (∀ e ∈ s.events, retention = 7 → e.created_at = now - 8 * dayMs →
        e ∉ (cleanup s now retention).1.events) := by
  have hd : dayMs = 86400000 := rfl
  refine ⟨?_, cleanup_count s now retention, ?_, ?_⟩
  · intro e
    constructor
    · intro he
      exact ⟨List.mem_of_mem_filter he, by simpa using (List.mem_filter.mp he).2⟩
    · rintro ⟨he, hc⟩
      exact List.mem_filter.mpr ⟨he, decide_eq_true hc⟩
  · intro e he h7 hc
    subst h7
    refine List.mem_filter.mpr ⟨he, decide_eq_true ?_⟩
    rw [hc, hd]
    omega
  · intro e he h7 hc hmem
    subst h7
    have hq := (List.mem_filter.mp hmem).2
    simp only [decide_eq_true_eq] at hq
    rw [hc, hd] at hq
    omega

/-- C5 witness: at cleanup instant `10 * dayMs` with retention 7, the event
created at `4 * dayMs` (6 days old) is kept and the one created at `2 * dayMs`
(8 days old) is removed. -/
theorem cleanup_spec_witness :
    newE ∈ (cleanup retStore (10 * dayMs) 7).1.events ∧
    oldE ∉ (cleanup retStore (10 * dayMs) 7).1.events := by
  constructor
  · exact (cleanup_spec retStore (10 * dayMs) 7).2.2.1 newE (by decide) rfl (by decide)
  · exact (cleanup_spec retStore (10 * dayMs) 7).2.2.2 oldE (by decide) rfl (by decide)

/-- C4: each operation preserves the per-event state machine.  Every row after
the operation either already existed (same id) or is the freshly inserted row
(new id, active); for a surviving id all fields other than `deleted_at` are
unchanged, and `deleted_at` either stays the same or goes from null to set —
never from set back to null; the id counter never decreases, so a purged id is
never reassigned. -/
theorem state_machine_preserved (op : Op) (now : Int) (s : Store) (hwf : WF s) :
    (∀ e2 ∈ (applyOp op now s).events,
        (∃ e ∈ s.events, e.id = e2.id) ∨
          (e2.id = s.nextId ∧ e2.deleted_at = none ∧ ∀ e ∈ s.events, e.id ≠ e2.id)) ∧
    (∀ e ∈ s.events, ∀ e2 ∈ (applyOp op now s).events, e.id = e2.id →
        ((e2.door_number = e.door_number ∧ e2.event_type = e.event_type ∧
          e2.timestamp_utc = e.timestamp_utc ∧ e2.created_at = e.created_at) ∧
         (e2.deleted_at = e.deleted_at ∨
           (e.deleted_at = none ∧ e2.deleted_at = some now)))) ∧
    s.nextId ≤ (applyOp op now s).nextId := by
  cases op with
  | recOp b =>
    rcases record_cases b now s with ⟨msg, hrec⟩ | hrec
    · have h2 : applyOp (Op.recOp b) now s = s := by
        simp only [applyOp, hrec]
      rw [h2]
      refine ⟨?_, ?_, le_refl _⟩
      · intro e2 he2
        exact Or.inl ⟨e2, he2, rfl⟩
      · intro e he e2 he2 hid
        have heq := pairwise_ne_id_unique hwf.2 e he e2 he2 hid
        subst heq
        exact ⟨⟨rfl, rfl, rfl, rfl⟩, Or.inl rfl⟩
    · have h2 : applyOp (Op.recOp b) now s = insertStore b now s := by
        simp only [applyOp, hrec]
      rw [h2]
      refine ⟨?_, ?_, ?_⟩
      · intro e2 he2
        rcases List.mem_append.mp he2 with he2 | he2
        · exact Or.inl ⟨e2, he2, rfl⟩
        · simp only [List.mem_singleton] at he2
          subst he2
          exact Or.inr ⟨rfl, rfl, fun e he => ne_of_lt (hwf.1 e he)⟩
      · intro e he e2 he2 hid
        rcases List.mem_append.mp he2 with he2 | he2
        · have heq := pairwise_ne_id_unique hwf.2 e he e2 he2 hid
          subst heq
          exact ⟨⟨rfl, rfl, rfl, rfl⟩, Or.inl rfl⟩
        · simp only [List.mem_singleton] at he2
          subst he2
          exact absurd hid (ne_of_lt (hwf.1 e he))
      · rw [insertStore_nextId]
        omega
  | undoOp eid =>
    refine ⟨?_, ?_, le_refl _⟩
    · intro e2 he2
      rw [show (applyOp (Op.undoOp eid) now s).events = (soft_delete s eid now).1.events from rfl,
        soft_delete_events] at he2
      rcases List.mem_map.mp he2 with ⟨e0, he0, rfl⟩
      refine Or.inl ⟨e0, he0, ?_⟩
      split_ifs <;> rfl
    · intro e he e2 he2 hid
      rw [show (applyOp (Op.undoOp eid) now s).events = (soft_delete s eid now).1.events from rfl,
        soft_delete_events] at he2
      rcases List.mem_map.mp he2 with ⟨e0, he0, rfl⟩
      have hid0 : e.id = e0.id := by
        rw [hid]
        split_ifs <;> rfl
      have heq := pairwise_ne_id_unique hwf.2 e he e0 he0 hid0
      subst heq
      by_cases hm : e.id = eid ∧ e.deleted_at = none
      · rw [if_pos hm]
        exact ⟨⟨rfl, rfl, rfl, rfl⟩, Or.inr ⟨hm.2, rfl⟩⟩
      · rw [if_neg hm]
        exact ⟨⟨rfl, rfl, rfl, rfl⟩, Or.inl rfl⟩
  | cleanupOp r =>
    refine ⟨?_, ?_, le_refl _⟩
    · intro e2 he2
      exact Or.inl ⟨e2, List.mem_of_mem_filter he2, rfl⟩
    · intro e he e2 he2 hid
      have heq := pairwise_ne_id_unique hwf.2 e he e2 (List.mem_of_mem_filter he2) hid
      subst heq
      exact ⟨⟨rfl, rfl, rfl, rfl⟩, Or.inl rfl⟩

/-- C4 witness: undoing id 1 on the tie store keeps every unrelated field of
the affected row and transitions its `deleted_at` from null to set. -/
theorem state_machine_preserved_witness :
    ({ tieE1 with deleted_at := some 2000 } : Event).timestamp_utc = tieE1.timestamp_utc ∧
    (({ tieE1 with deleted_at := some 2000 } : Event).deleted_at = tieE1.deleted_at ∨
      (tieE1.deleted_at = none ∧
        ({ tieE1 with deleted_at := some 2000 } : Event).deleted_at = some 2000)) := by
  have h := (state_machine_preserved (Op.undoOp 1) 2000 tieStore ⟨by decide, by decide⟩).2.1 tieE1
      (by decide) ({ tieE1 with deleted_at := some 2000 }) (by decide) (by decide)
  exact ⟨h.1.2.2.1, h.2⟩

theorem recentLimit_default {q : Option String}
    (h : parseIntJS q = none ∨ parseIntJS q = some 0) : recentLimit q = 10 := by
  rcases h with h | h <;> simp [recentLimit, h]

theorem recentLimit_parse_some {q : Option String} {n : Int}
    (h : parseIntJS q = some n) (hn : n ≠ 0) : recentLimit q = n := by
  unfold recentLimit
  rw [h]
  cases n with
  | ofNat m =>
    cases m with
    | zero => exact absurd rfl hn
    | succ k => rfl
  | negSucc m => rfl

theorem list_active_nonneg (s : Store) (limit : Int) (h : 0 ≤ limit) :
    list_active s limit = Except.ok ((sortTsDesc (activeEvents s)).take limit.toNat) := by
  unfold list_active
  rw [if_neg (not_lt.mpr h)]

theorem list_active_neg (s : Store) (limit : Int) (h : limit < 0) :
    list_active s limit = Except.error "LIMIT must not be negative" := by
  unfold list_active
  rw [if_pos h]

/-- C8 counterexample: the claim says limits ≤ 0 and absurdly large limits are
rejected or clamped rather than passed through.  For the limit string
"1000000000000" the handler computes the effective limit 10^12 and hands
exactly that value to the store's `LIMIT` — no rejection and no clamping —
and the query succeeds, returning every active event. -/
theorem recent_limit_passthrough_counterexample :
    recentLimit (some "1000000000000") = 1000000000000 ∧
    recent tieStore (some "1000000000000") = Except.ok [tieE1, tieE2] := by
  have h1 : recentLimit (some "1000000000000") = 1000000000000 := by decide
  refine ⟨h1, ?_⟩
  show list_active tieStore (recentLimit (some "1000000000000")) = _
  rw [h1, list_active_nonneg tieStore 1000000000000 (by decide)]
  rw [List.take_of_length_le (by decide)]
  decide

/-- C8 (amended): `recent` returns active events ordered by `timestamp_utc`
descending capped at the limit; an absent, non-numeric or zero limit defaults
to 10; any other parsed limit — negative or arbitrarily large — is passed to
the store query unchanged, where a negative value is rejected by the store
itself (HTTP 500) and a large value is applied as-is without clamping. -/
theorem recent_spec (s : Store) (q : Option String) (n limit : Int) :
    (parseIntJS q = none → recent s q = list_active s 10) ∧
    (parseIntJS q = some 0 → recent s q = list_active s 10) ∧
    (parseIntJS q = some n → n ≠ 0 → recentLimit q = n) ∧
    (0 ≤ limit → ∃ l, list_active s limit = Except.ok l ∧
        l.length ≤ limit.toNat ∧ l.Pairwise TsOrder ∧ ∀ e ∈ l, e ∈ activeEvents s) ∧
    (limit < 0 → list_active s limit = Except.error "LIMIT must not be negative") := by
  refine ⟨?_, ?_, ?_, ?_, ?_⟩
  · intro h
    show list_active s (recentLimit q) = _
    rw [recentLimit_default (Or.inl h)]
  · intro h
    show list_active s (recentLimit q) = _
    rw [recentLimit_default (Or.inr h)]
  · exact recentLimit_parse_some
  · intro h
    refine ⟨(sortTsDesc (activeEvents s)).take limit.toNat,
      list_active_nonneg s limit h, List.length_take_le _ _,
      List.Pairwise.sublist (List.take_sublist _ _) (sorted_sortTsDesc _), ?_⟩
    intro e he
    exact (perm_sortTsDesc _).subset (List.mem_of_mem_take he)
  · exact list_active_neg s limit

/-- C8 witness: with no limit parameter the handler queries with limit 10; the
limit string "-5" is parsed to -5 and passed through, which the store
rejects. -/
theorem recent_spec_witness :
    recent tieStore none = list_active tieStore 10 ∧
    recentLimit (some "-5") = -5 ∧
    list_active tieStore (-5) = Except.error "LIMIT must not be negative" :=
  ⟨(recent_spec tieStore none 0 0).1 (by decide),
    (recent_spec tieStore (some "-5") (-5) 0).2.2.1 (by decide) (by decide),
    (recent_spec tieStore none 0 (-5)).2.2.2.2 (by decide)⟩

/-- C10: a recent request whose limit is absent, non-numeric, or parses to 0
behaves exactly as limit 10 — up to 10 active events, not zero rows and not an
error — while a negative parsed limit is passed to the store query
unclamped. -/
theorem recent_default_limit (s : Store) (q : Option String) (n : Int) :
    (parseIntJS q = none ∨ parseIntJS q = some 0 →
        recent s q = Except.ok ((sortTsDesc (activeEvents s)).take 10)) ∧
    (parseIntJS q = some n → n < 0 →
        recentLimit q = n ∧ recent s q = Except.error "LIMIT must not be negative") := by
  constructor
  · intro h
    show list_active s (recentLimit q) = _
    rw [recentLimit_default h, list_active_nonneg s 10 (by decide)]
    rfl
  · intro h hn
    have hl := recentLimit_parse_some h (by omega)
    refine ⟨hl, ?_⟩
    show list_active s (recentLimit q) = _
    rw [hl]
    exact list_active_neg s n hn

/-- C10 witness: the non-numeric limit "abc" behaves as limit 10, and the
limit "-3" is parsed to -3 and handed to the store unclamped. -/
theorem recent_default_limit_witness :
    recent tieStore (some "abc") = Except.ok ((sortTsDesc (activeEvents tieStore)).take 10) ∧
    recentLimit (some "-3") = -3 :=
  ⟨(recent_default_limit tieStore (some "abc") 0).1 (Or.inl (by decide)),
    ((recent_default_limit tieStore (some "-3") (-3)).2 (by decide) (by decide)).1⟩

/-- C7: the export emits exactly one serialized row per active event (its row
list is the serialization of a permutation of the active events, ordered by
`timestamp_utc` descending), and along any trace of record/undo requests from
the empty store the number of exported rows equals the number of successful
records minus the number of successful undos. -/
theorem export_active_spec (s : Store) (tr : List RUOp) :
    (exportRows s).length = activeCount s ∧
    (sortTsDesc (activeEvents s)).Pairwise TsOrder ∧
    (sortTsDesc (activeEvents s)).Perm (activeEvents s) ∧
    (exportRows (runTrace tr emptyStore).1).length + (runTrace tr emptyStore).2.2 =
      (runTrace tr emptyStore).2.1 := by
  have hlen : ∀ s2 : Store, (exportRows s2).length = activeCount s2 := by
    intro s2
    show ((sortTsDesc (activeEvents s2)).map serializeRow).length = _
    rw [List.length_map, length_sortTsDesc]
    rfl
  refine ⟨hlen s, sorted_sortTsDesc _, perm_sortTsDesc _, ?_⟩
  have h := runTrace_activeCount tr emptyStore WF_emptyStore
  have h0 : activeCount emptyStore = 0 := rfl
  rw [hlen]
  omega
